import Mathlib

/-!
# Verification of `seismic/analyze_station_orientations.py`

A shallow embedding of the station-orientation analysis pipeline of
`hiperseis`.  Waveform amplitudes, times and angles are modelled as exact
rationals; the undefined amplitude sentinel (`np.nan`) is modelled as
`Option.none`.  External library collaborators (the receiver-function
transform, obspy trace processing, the scipy curve fitter, seismogram
curation) are parameters of the embedded functions, as the spec designates
them external collaborators.
-/

namespace AnalyzeStationOrientations

/-! ## Back-azimuth wrap-around (lines 80–83 of the source)

```python
while tr.stats.back_azimuth < 0:
    tr.stats.back_azimuth += 360
while tr.stats.back_azimuth >= 360:
    tr.stats.back_azimuth -= 360
```
-/

/-- First wrap loop: add 360 while the value is negative. -/
def wrapAdd (b : ℚ) : ℚ :=
  if b < 0 then wrapAdd (b + 360) else b
termination_by (Int.ceil (-b / 360)).toNat
decreasing_by
  have h1 : (0:ℚ) < -b / 360 := by
    apply div_pos <;> [linarith; norm_num]
  have h2 : (1:ℤ) ≤ Int.ceil (-b / 360) := by
    exact_mod_cast Int.ceil_pos.mpr h1
  have h3 : -(b + 360) / 360 = -b / 360 - 1 := by ring
  have h4 : Int.ceil (-(b + 360) / 360) = Int.ceil (-b / 360) - 1 := by
    rw [h3, Int.ceil_sub_one]
  omega

/-- Second wrap loop: subtract 360 while the value is at least 360. -/
def wrapSub (b : ℚ) : ℚ :=
  if b ≥ 360 then wrapSub (b - 360) else b
termination_by (Int.floor (b / 360)).toNat
decreasing_by
  have h1 : (1:ℚ) ≤ b / 360 := by
    rw [le_div_iff₀] <;> [linarith; norm_num]
  have h2 : (1:ℤ) ≤ Int.floor (b / 360) := by
    exact_mod_cast Int.le_floor.mpr (by exact_mod_cast h1)
  have h3 : (b - 360) / 360 = b / 360 - 1 := by ring
  have h4 : Int.floor ((b - 360) / 360) = Int.floor (b / 360) - 1 := by
    rw [h3, Int.floor_sub_one]
  omega

/-- The full wrap applied to a back-azimuth: both loops in sequence. -/
def wrap (b : ℚ) : ℚ := wrapSub (wrapAdd b)

theorem wrapAdd_nonneg (b : ℚ) : 0 ≤ wrapAdd b := by
  rw [wrapAdd]
  split
  · exact wrapAdd_nonneg (b + 360)
  · linarith
termination_by (Int.ceil (-b / 360)).toNat
decreasing_by
  have h1 : (0:ℚ) < -b / 360 := by
    apply div_pos <;> [linarith; norm_num]
  have h2 : (1:ℤ) ≤ Int.ceil (-b / 360) := by
    exact_mod_cast Int.ceil_pos.mpr h1
  have h3 : -(b + 360) / 360 = -b / 360 - 1 := by ring
  have h4 : Int.ceil (-(b + 360) / 360) = Int.ceil (-b / 360) - 1 := by
    rw [h3, Int.ceil_sub_one]
  omega

theorem wrapAdd_lt_360 (b : ℚ) (hb : b < 360) : wrapAdd b < 360 := by
  rw [wrapAdd]
  split
  · next h =>
    by_cases h2 : b + 360 < 360
    · exact wrapAdd_lt_360 (b + 360) h2
    · rw [wrapAdd]
      have : ¬ b + 360 < 0 := by linarith
      simp only [this, if_false]
      linarith
  · exact hb
termination_by (Int.ceil (-b / 360)).toNat
decreasing_by
  have h1 : (0:ℚ) < -b / 360 := by
    apply div_pos <;> [linarith; norm_num]
  have h2 : (1:ℤ) ≤ Int.ceil (-b / 360) := by
    exact_mod_cast Int.ceil_pos.mpr h1
  have h3 : -(b + 360) / 360 = -b / 360 - 1 := by ring
  have h4 : Int.ceil (-(b + 360) / 360) = Int.ceil (-b / 360) - 1 := by
    rw [h3, Int.ceil_sub_one]
  omega

theorem wrapAdd_of_nonneg (b : ℚ) (hb : 0 ≤ b) : wrapAdd b = b := by
  rw [wrapAdd]
  have : ¬ b < 0 := not_lt.mpr hb
  simp [this]

theorem wrapSub_lt_360 (b : ℚ) : wrapSub b < 360 := by
  rw [wrapSub]
  split
  · exact wrapSub_lt_360 (b - 360)
  · next h => linarith [not_le.mp h]
termination_by (Int.floor (b / 360)).toNat
decreasing_by
  have h1 : (1:ℚ) ≤ b / 360 := by
    rw [le_div_iff₀] <;> [linarith; norm_num]
  have h2 : (1:ℤ) ≤ Int.floor (b / 360) := by
    exact_mod_cast Int.le_floor.mpr (by exact_mod_cast h1)
  have h3 : (b - 360) / 360 = b / 360 - 1 := by ring
  have h4 : Int.floor ((b - 360) / 360) = Int.floor (b / 360) - 1 := by
    rw [h3, Int.floor_sub_one]
  omega

theorem wrapSub_nonneg (b : ℚ) (hb : 0 ≤ b) : 0 ≤ wrapSub b := by
  rw [wrapSub]
  split
  · next h => exact wrapSub_nonneg (b - 360) (by linarith)
  · exact hb
termination_by (Int.floor (b / 360)).toNat
decreasing_by
  have h1 : (1:ℚ) ≤ b / 360 := by
    rw [le_div_iff₀] <;> [linarith; norm_num]
  have h2 : (1:ℤ) ≤ Int.floor (b / 360) := by
    exact_mod_cast Int.le_floor.mpr (by exact_mod_cast h1)
  have h3 : (b - 360) / 360 = b / 360 - 1 := by ring
  have h4 : Int.floor ((b - 360) / 360) = Int.floor (b / 360) - 1 := by
    rw [h3, Int.floor_sub_one]
  omega

theorem wrapSub_of_lt_360 (b : ℚ) (hb : b < 360) : wrapSub b = b := by
  rw [wrapSub]
  have : ¬ b ≥ 360 := not_le.mpr hb
  simp [this]

/-- The wrap always lands in `[0, 360)`. -/
theorem wrap_mem_Ico (b : ℚ) : wrap b ∈ Set.Ico (0:ℚ) 360 := by
  constructor
  · exact wrapSub_nonneg _ (wrapAdd_nonneg b)
  · exact wrapSub_lt_360 _

/-- The wrap fixes values already in `[0, 360)`. -/
theorem wrap_of_mem_Ico (b : ℚ) (hb : b ∈ Set.Ico (0:ℚ) 360) : wrap b = b := by
  obtain ⟨h0, h1⟩ := hb
  rw [wrap, wrapAdd_of_nonneg b h0, wrapSub_of_lt_360 b h1]

/-! ## Closed amplitude curve (line 192: `y = np.array(ampls + [ampls[0]])`) -/

/-- The amplitude curve with the wrap-around duplicate of the first sample
appended, exactly as `ampls + [ampls[0]]` builds it.  `none` models the
`np.nan` sentinel for an undefined amplitude. -/
def closedCurve (ampls : List (Option ℚ)) : List (Option ℚ) :=
  ampls ++ [ampls.headI]

/-- The abscissa used by the fitter: the 20 grid angles with `angles[0]+360`
appended (line 189: `x = np.hstack((angles, angles[0] + 360))`). -/
def xGrid (angles : List ℚ) : List ℚ :=
  angles ++ [angles.headI + 360]

/-! ## Dense reconstruction grid and `np.argmax`
(lines 190 and 216: `angles_fine = np.linspace(-180, 180, num=361)`,
`angle_max = angles_fine[np.argmax(y_fitted)]`) -/

/-- `np.linspace(-180, 180, num=361)`: the 1°-step grid −180, −179, …, 180.
Note it includes the right endpoint +180. -/
def anglesFine : List ℚ :=
  (List.range 361).map (fun i : ℕ => (i : ℚ) - 180)

/-- The first 360 points of `anglesFine`: the grid over `[-180, 180)`. -/
def anglesFineHalf : List ℚ :=
  (List.range 360).map (fun i : ℕ => (i : ℚ) - 180)

/-- Running fold of `np.argmax` over a list of angles, comparing curve values
`g` and keeping the earliest maximum (`>` is strict, so ties keep the earlier
angle, matching `np.argmax`'s first-occurrence rule). -/
def argmaxAngleAux (g : ℚ → ℚ) (best : ℚ) : List ℚ → ℚ
  | [] => best
  | a :: rest => if g a > g best then argmaxAngleAux g a rest else argmaxAngleAux g best rest

/-- `angles[np.argmax(angles.map g)]` for a list of distinct angles. -/
def listArgmax (g : ℚ → ℚ) : List ℚ → ℚ
  | [] => 0
  | a :: rest => argmaxAngleAux g a rest

/-- `angles_fine[np.argmax(y_fitted)]` where `y_fitted = g` sampled on the
dense grid. -/
def angleOfMax (g : ℚ → ℚ) : ℚ :=
  listArgmax g anglesFine

theorem argmaxAngleAux_mem (g : ℚ → ℚ) (l : List ℚ) :
    ∀ best, argmaxAngleAux g best l = best ∨ argmaxAngleAux g best l ∈ l := by
  induction l with
  | nil => intro best; left; rfl
  | cons a rest ih =>
    intro best
    rw [argmaxAngleAux]
    split
    · rcases ih a with h | h
      · right; rw [h]; exact List.mem_cons_self a rest
      · right; exact List.mem_cons_of_mem a h
    · rcases ih best with h | h
      · left; exact h
      · right; exact List.mem_cons_of_mem a h

theorem le_argmaxAngleAux (g : ℚ → ℚ) (l : List ℚ) :
    ∀ best, g best ≤ g (argmaxAngleAux g best l) := by
  induction l with
  | nil => intro best; rw [argmaxAngleAux]
  | cons a rest ih =>
    intro best
    rw [argmaxAngleAux]
    split
    · next h => exact le_trans (le_of_lt h) (ih a)
    · exact ih best

theorem argmaxAngleAux_ge_all (g : ℚ → ℚ) (l : List ℚ) :
    ∀ best, ∀ x ∈ l, g x ≤ g (argmaxAngleAux g best l) := by
  induction l with
  | nil => intro best x hx; cases hx
  | cons a rest ih =>
    intro best x hx
    rw [argmaxAngleAux]
    rcases List.mem_cons.mp hx with rfl | hx
    · split
      · exact le_argmaxAngleAux g rest x
      · next h => exact le_trans (not_lt.mp h) (le_argmaxAngleAux g rest best)
    · split
      · exact ih a x hx
      · exact ih best x hx

theorem argmaxAngleAux_append_singleton (g : ℚ → ℚ) (l : List ℚ) :
    ∀ best u, argmaxAngleAux g best (l ++ [u]) =
      if g u > g (argmaxAngleAux g best l) then u else argmaxAngleAux g best l := by
  induction l with
  | nil => intro best u; simp [argmaxAngleAux]
  | cons a rest ih =>
    intro best u
    rw [List.cons_append, argmaxAngleAux, argmaxAngleAux]
    split
    · exact ih a u
    · exact ih best u

theorem anglesFine_eq_half_append :
    anglesFine = anglesFineHalf ++ [180] := by
  rw [anglesFine, anglesFineHalf, List.range_succ, List.map_append]
  norm_num

theorem anglesFineHalf_eq_cons :
    anglesFineHalf = (-180) :: (List.range 359).map (fun i : ℕ => ((i : ℚ) + 1) - 180) := by
  rw [anglesFineHalf, List.range_succ_eq_map, List.map_cons, List.map_map]
  norm_num [Function.comp_def]

theorem anglesFineHalf_mem_Ico (x : ℚ) (hx : x ∈ anglesFineHalf) :
    x ∈ Set.Ico (-180 : ℚ) 180 := by
  rw [anglesFineHalf, List.mem_map] at hx
  obtain ⟨i, hi, rfl⟩ := hx
  rw [List.mem_range] at hi
  constructor
  · have : (0:ℚ) ≤ (i:ℚ) := Nat.cast_nonneg i
    linarith
  · have : (i:ℚ) < 360 := by exact_mod_cast hi
    linarith

/-- If the curve takes the same value at both grid endpoints (as the periodic
cosine model does), the argmax over the 361-point grid never selects the
duplicate right endpoint: it coincides with the argmax over `[-180, 180)`. -/
theorem angleOfMax_eq_half (g : ℚ → ℚ) (hg : g 180 = g (-180)) :
    angleOfMax g = listArgmax g anglesFineHalf := by
  rw [angleOfMax, anglesFine_eq_half_append, anglesFineHalf_eq_cons]
  rw [listArgmax, List.cons_append, listArgmax, argmaxAngleAux_append_singleton]
  have h1 : g 180 ≤ g (argmaxAngleAux g (-180) ((List.range 359).map (fun i : ℕ => ((i : ℚ) + 1) - 180))) := by
    rw [hg]; exact le_argmaxAngleAux g _ _
  rw [if_neg (not_lt.mpr h1)]

theorem angleOfMax_mem (g : ℚ → ℚ) (hg : g 180 = g (-180)) :
    angleOfMax g ∈ Set.Ico (-180 : ℚ) 180 := by
  rw [angleOfMax_eq_half g hg, anglesFineHalf_eq_cons, listArgmax]
  rcases argmaxAngleAux_mem g _ (-180) with h | h
  · rw [h]; constructor <;> norm_num
  · apply anglesFineHalf_mem_Ico
    rw [anglesFineHalf_eq_cons]
    exact List.mem_cons_of_mem _ h

theorem angleOfMax_ge (g : ℚ → ℚ) (θ : ℚ) (hθ : θ ∈ anglesFine) :
    g θ ≤ g (angleOfMax g) := by
  have hcons : anglesFine = (-180) :: ((List.range 359).map (fun i : ℕ => ((i : ℚ) + 1) - 180) ++ [180]) := by
    rw [anglesFine_eq_half_append, anglesFineHalf_eq_cons, List.cons_append]
  rw [angleOfMax, hcons, listArgmax]
  rw [hcons, List.mem_cons] at hθ
  rcases hθ with rfl | hθ
  · exact le_argmaxAngleAux g _ _
  · exact argmaxAngleAux_ge_all g _ (-180) θ hθ

/-- The cosine model of line 210/213,
`_amp * np.cos(np.deg2rad(_x + _ph))`, over the reals. -/
noncomputable def y_fitted (A ph θ : ℝ) : ℝ :=
  A * Real.cos ((θ + ph) * Real.pi / 180)

theorem y_fitted_endpoint (A ph : ℝ) : y_fitted A ph 180 = y_fitted A ph (-180) := by
  rw [y_fitted, y_fitted]
  have h1 : (180 + ph) * Real.pi / 180 = ph * Real.pi / 180 + Real.pi := by ring
  have h2 : (-180 + ph) * Real.pi / 180 = ph * Real.pi / 180 - Real.pi := by ring
  rw [h1, h2, Real.cos_add, Real.cos_sub, Real.cos_pi, Real.sin_pi]
  ring

/-! ## Event waveform records and the angle-sweep evaluator
(`_run_single_station`, lines 61–106) -/

/-- Per-trace metadata (`tr.stats`). -/
structure TrStats where
  back_azimuth : ℚ
  starttime : ℚ
  endtime : ℚ
  deriving Repr, DecidableEq

/-- One trace of a three-component stream. -/
structure Trace where
  stats : TrStats
  data : List ℚ
  deriving Repr, DecidableEq

instance : Inhabited Trace := ⟨⟨⟨0, 0, 0⟩, []⟩⟩

/-- An obspy `Stream`: the list of traces of one event at one station. -/
abbrev Stream := List Trace

/-- One trace of a computed receiver function, tagged with its component
letter (`R`, `T`, `Z`). -/
structure RFTrace where
  component : Char
  data : List ℚ
  deriving Repr, DecidableEq

/-- The rotation step of lines 78–84: every trace of the (deep-copied) stream
gets `correction` added to its back-azimuth and the result wrapped into
`[0, 360)` by the two `while` loops. -/
def rotateStream (correction : ℚ) (s : Stream) : Stream :=
  s.map (fun tr =>
    { tr with stats := { tr.stats with back_azimuth := wrap (tr.stats.back_azimuth + correction) } })

/-- `np.mean` of a trace's samples. -/
def mean (l : List ℚ) : ℚ := l.sum / l.length

/-- `rf_stream_all.select(component='R')` (line 94). -/
def selectR (l : List RFTrace) : List RFTrace :=
  l.filter (fun t => t.component = 'R')

/-- The inner event loop of lines 75–92 for one candidate correction angle:
deep-copy each event's stream, rotate its back-azimuths, run the external
receiver-function transform, skip events for which it returns `None`
(`continue`), and concatenate all resulting 3-channel RF streams.
`transform` is the external collaborator `transform_stream_to_rf`. -/
def collectRF (db_evid : List (String × Stream)) (correction : ℚ)
    (transform : String → Stream → Option (List RFTrace)) : List RFTrace :=
  db_evid.foldl (fun rf_stream_all ev =>
    match transform ev.1 (rotateStream correction ev.2) with
    | none => rf_stream_all
    | some rf_3ch => rf_stream_all ++ rf_3ch) []

/-- The per-angle metric of lines 93–102: if the aggregate RF stream is
non-empty, the mean amplitude of the stacked radial component over the final
window (`procStack` is the external obspy trim/detrend/taper/stack chain that
yields the final-window samples of the stacked trace), else the `np.nan`
sentinel, modelled as `none`. -/
def evalAngle (db_evid : List (String × Stream))
    (transform : String → Stream → Option (List RFTrace))
    (procStack : List RFTrace → List ℚ) (correction : ℚ) : Option ℚ :=
  let rf_stream_all := collectRF db_evid correction transform
  if rf_stream_all.length > 0 then
    some (mean (procStack (selectR rf_stream_all)))
  else
    none

/-- `_run_single_station` (lines 61–106): iterate the per-angle evaluator over
the candidate angle grid, appending each metric to `ampls` in loop order. -/
def run_single_station (db_evid : List (String × Stream)) (angles : List ℚ)
    (transform : String → Stream → Option (List RFTrace))
    (procStack : List RFTrace → List ℚ) : List (Option ℚ) :=
  angles.foldl (fun ampls correction =>
    ampls ++ [evalAngle db_evid transform procStack correction]) []

/-- The candidate angle grid of line 177:
`np.linspace(-180, 180, num=20, endpoint=False)`. -/
def anglesGrid : List ℚ :=
  (List.range 20).map (fun i : ℕ => -180 + (360 / 20) * (i : ℚ))

theorem foldl_append_eq_map {α β : Type} (f : α → β) (l : List α) :
    ∀ acc : List β, l.foldl (fun acc x => acc ++ [f x]) acc = acc ++ l.map f := by
  induction l with
  | nil => intro acc; simp
  | cons a rest ih => intro acc; simp [ih]

/-- The sweep produces exactly the per-angle metrics, in grid order. -/
theorem run_single_station_eq_map (db_evid : List (String × Stream)) (angles : List ℚ)
    (transform : String → Stream → Option (List RFTrace))
    (procStack : List RFTrace → List ℚ) :
    run_single_station db_evid angles transform procStack =
      angles.map (evalAngle db_evid transform procStack) := by
  rw [run_single_station, foldl_append_eq_map]
  simp

/-! ## The orchestrator (`analyze_station_orientations`, lines 109–241) -/

/-- Modelled from the spec: the `NetworkEventDataset` class (defined in
`seismic/network_event_dataset.py`, outside the analysed sources) is a
network-scoped dataset grouping, per station code, the mapping from event id
to three-channel waveform stream; `by_station()` iterates station/event-db
pairs and `len` counts the events it holds. -/
structure NED where
  network : String
  stations : List (String × List (String × Stream))
  deriving Repr, DecidableEq

/-- Modelled from the spec: `len(ned)` — the number of events in the
dataset (the spec's empty-dataset case is "zero events"). -/
def nedLen (ned : NED) : ℕ :=
  (ned.stations.map (fun p => p.2.length)).sum

/-- Modelled from the spec: `ned.apply(f)` applies an in-place stream
transform to every event stream of the dataset (used by the trimming and
downsampling stages, lines 162 and 167–168). -/
def nedApply (f : Stream → Stream) (ned : NED) : NED :=
  { ned with stations := ned.stations.map (fun p => (p.1, p.2.map (fun e => (e.1, f e.2)))) }

/-- One record of the output mapping.  The source stores a JSON-like dict per
`net.sta` code; `date_range` is set by the first loop (line 155) and
`azimuth_correction` by the estimation loop (line 218).  A missing key is
`none`. -/
structure StationResult where
  date_range : Option (Option ℚ × Option ℚ)
  azimuth_correction : Option ℚ
  deriving Repr, DecidableEq

/-- The per-station date-range fold of lines 141–154: `start_time`/`end_time`
start as `None`, are seeded from the first trace of the first stream, then
min/max over every trace of every stream. -/
def dateRangeOf (db : List (String × Stream)) : Option ℚ × Option ℚ :=
  db.foldl (fun acc p =>
    let st0 := acc.1.getD p.2.headI.stats.starttime
    let en0 := acc.2.getD p.2.headI.stats.endtime
    (some (p.2.foldl (fun s tr => min s tr.stats.starttime) st0),
     some (p.2.foldl (fun e tr => max e tr.stats.endtime) en0))) (none, none)

/-- The first loop of lines 139–156: one entry per station of the input
dataset, keyed `network.station`, holding only the date range. -/
def initResults (ned : NED) : List (String × StationResult) :=
  ned.stations.map (fun p =>
    (ned.network ++ "." ++ p.1,
     { date_range := some (dateRangeOf p.2), azimuth_correction := none }))

/-- `results[code]['azimuth_correction'] = v` on the `defaultdict(dict)` of
line 139: update the existing record for `code`, or create a fresh record
(with no date range) when the key is absent. -/
def setAzimuth (res : List (String × StationResult)) (code : String) (v : ℚ) :
    List (String × StationResult) :=
  if res.any (fun p => p.1 == code) then
    res.map (fun p =>
      if p.1 = code then (p.1, { p.2 with azimuth_correction := some v }) else p)
  else
    res ++ [(code, { date_range := none, azimuth_correction := some v })]

/-- `n_valid = np.sum(np.isfinite(y))` (lines 193–194): the number of
finite (non-`nan`) samples of the closed curve. -/
def nValid (y : List (Option ℚ)) : ℕ :=
  (y.filter Option.isSome).length

/-- `x_valid = x[mask]` (line 199). -/
def xValid (x : List ℚ) (y : List (Option ℚ)) : List ℚ :=
  ((x.zip y).filter (fun p => p.2.isSome)).map Prod.fst

/-- `y_valid = y[mask]` (line 200). -/
def yValid (y : List (Option ℚ)) : List ℚ :=
  y.filterMap id

/-- The external collaborators of the pipeline, passed as parameters: the
obspy stream transforms of the trimming/downsampling stages, the curation
stage, the receiver-function transform, the obspy stacking chain, the scipy
cosine fitter (returning `(A_fit, ph_fit)`; it raises on non-convergence,
which the spec treats as fatal, so a convergent fit is a total function), and
the numeric evaluation of `A*cos(deg2rad(θ + ph))`. -/
structure AnalysisEnv where
  trimFn : Stream → Stream
  dsFn : Stream → Stream
  curateFn : NED → NED
  transform : String → Stream → Option (List RFTrace)
  procStack : List RFTrace → List ℚ
  fit : List ℚ → List ℚ → ℚ × ℚ
  curveEval : ℚ → ℚ → ℚ → ℚ

/-- Lines 199–216 for one station that passed the data gate: fit the cosine
model over the valid samples and take the angle of maximum of the fitted
curve on the dense grid. -/
def stationAngleMax (env : AnalysisEnv) (ampls : List (Option ℚ)) : ℚ :=
  let y := closedCurve ampls
  let fitted := env.fit (xValid (xGrid anglesGrid) y) (yValid y)
  angleOfMax (env.curveEval fitted.1 fitted.2)

/-- The body of the estimation loop of lines 191–238 for one
`(sta, N, ampls)` triple: close the curve, count the finite samples, skip
the station (log only) when fewer than 5 are valid, otherwise fit and store
the azimuth correction under `network.sta`. -/
def processStation (env : AnalysisEnv) (network : String)
    (acc : List (String × StationResult) × List String)
    (entry : (String × ℕ) × List (Option ℚ)) :
    List (String × StationResult) × List String :=
  let sta := entry.1.1
  let ampls := entry.2
  let n_valid := nValid (closedCurve ampls)
  if n_valid < 5 then
    (acc.1, acc.2 ++ [sta ++ ": Insufficient data"])
  else
    (setAzimuth acc.1 (network ++ "." ++ sta) (stationAngleMax env ampls),
     acc.2 ++ [sta ++ ": estimate"])

/-- The estimation loop over all stations. -/
def stationFold (env : AnalysisEnv) (network : String)
    (metrics : List ((String × ℕ) × List (Option ℚ)))
    (acc : List (String × StationResult) × List String) :
    List (String × StationResult) × List String :=
  metrics.foldl (processStation env network) acc

/-- The dataset as it stands after the trimming, downsampling and curation
stages of lines 161–174 (the Python code mutates `ned` in place; here each
stage is an explicit transform). -/
def curatedNED (env : AnalysisEnv) (ned : NED) : NED :=
  env.curateFn (nedApply env.dsFn (nedApply env.trimFn ned))

/-- `analyze_station_orientations` (lines 109–241): early-return an empty
mapping for an empty dataset; otherwise record each station's date range,
run the three dataset stages, sweep every station over the candidate grid
(lines 177–187), and run the estimation loop.  The second component is the
trace of informational log messages, empty exactly when no stage ran. -/
def analyze_station_orientations (env : AnalysisEnv) (ned : NED) :
    List (String × StationResult) × List String :=
  if nedLen ned = 0 then ([], [])
  else
    let results0 := initResults ned
    let ned3 := curatedNED env ned
    let stations := ned3.stations.map (fun p => (p.1, p.2.length))
    let sta_ampls := ned3.stations.map (fun p =>
      run_single_station p.2 anglesGrid env.transform env.procStack)
    stationFold env ned3.network (stations.zip sta_ampls)
      (results0,
       ["Trimming dataset", "Downsampling dataset", "Curating dataset", "Analysing arrivals"])

/-! ## Association-list lemmas about the result mapping -/

theorem any_key_iff_lookup (res : List (String × StationResult)) (code : String) :
    res.any (fun p => p.1 == code) = true ↔ (res.lookup code).isSome := by
  induction res with
  | nil => simp [List.lookup]
  | cons p rest ih =>
    obtain ⟨k, b⟩ := p
    by_cases hck : code = k
    · subst hck
      simp [List.lookup_cons]
    · have h1 : (k == code) = false := beq_false_of_ne (fun h => hck h.symm)
      have h2 : (code == k) = false := beq_false_of_ne hck
      simp [List.lookup_cons, h1, h2, ih]

theorem lookup_append_left (res l' : List (String × StationResult)) (code : String)
    (r : StationResult) (h : res.lookup code = some r) :
    (res ++ l').lookup code = some r := by
  induction res with
  | nil => simp [List.lookup] at h
  | cons p rest ih =>
    obtain ⟨k, b⟩ := p
    by_cases hck : code = k
    · subst hck
      simp [List.lookup_cons] at h ⊢
      exact h
    · have h2 : (code == k) = false := beq_false_of_ne hck
      simp [List.lookup_cons, h2] at h ⊢
      exact ih h

theorem lookup_map_update (res : List (String × StationResult)) (code c : String) (v : ℚ) :
    (res.map (fun p =>
      if p.1 = c then (p.1, { p.2 with azimuth_correction := some v }) else p)).lookup code =
    (res.lookup code).map (fun r =>
      if code = c then { r with azimuth_correction := some v } else r) := by
  induction res with
  | nil => simp [List.lookup]
  | cons p rest ih =>
    obtain ⟨k, b⟩ := p
    simp only [List.map_cons]
    by_cases hck : code = k
    · subst hck
      by_cases hkc : code = c
      · subst hkc
        simp [List.lookup_cons]
      · simp [List.lookup_cons, if_neg hkc, hkc]
    · have h2 : (code == k) = false := beq_false_of_ne hck
      by_cases hkc : k = c
      · have h4 : (code == c) = false := beq_false_of_ne (fun h => hck (h.trans hkc.symm))
        simp [List.lookup_cons, if_pos hkc, hkc, h2, h4, ih]
      · simp [List.lookup_cons, if_neg hkc, h2, ih]

/-- Updating the azimuth of `c` rewrites the record found for `code`
accordingly: the stored date range is never touched. -/
theorem lookup_setAzimuth_of_some (res : List (String × StationResult)) (c : String) (v : ℚ)
    (code : String) (r : StationResult) (h : res.lookup code = some r) :
    (setAzimuth res c v).lookup code =
      some (if code = c then { r with azimuth_correction := some v } else r) := by
  rw [setAzimuth]
  split
  · rw [lookup_map_update, h]
    rfl
  · next hany =>
    have hnone : res.lookup c = none := by
      rcases h' : res.lookup c with _ | r'
      · rfl
      · exfalso
        apply hany
        apply (any_key_iff_lookup res c).mpr
        rw [h']
        rfl
    by_cases hcc : code = c
    · subst hcc
      rw [hnone] at h
      cases h
    · rw [if_neg hcc]
      exact lookup_append_left res _ code r h

/-- Updating the azimuth of `c` leaves every other key's record unchanged. -/
theorem lookup_setAzimuth_of_ne (res : List (String × StationResult)) (c : String) (v : ℚ)
    (code : String) (hne : code ≠ c) :
    (setAzimuth res c v).lookup code = res.lookup code := by
  rw [setAzimuth]
  split
  · rw [lookup_map_update]
    cases h : res.lookup code with
    | none => rfl
    | some r => simp [hne]
  · cases h : res.lookup code with
    | none =>
      have h2 : (code == c) = false := beq_false_of_ne hne
      rw [List.lookup_append, h]
      simp [List.lookup_cons, h2, List.lookup]
    | some r => exact lookup_append_left res _ code r h

/-- After `setAzimuth res c v`, key `c` maps to a record whose azimuth is
`some v`. -/
theorem lookup_setAzimuth_self (res : List (String × StationResult)) (c : String) (v : ℚ) :
    ∃ r, (setAzimuth res c v).lookup c = some r ∧ r.azimuth_correction = some v := by
  cases h : res.lookup c with
  | none =>
    refine ⟨{ date_range := none, azimuth_correction := some v }, ?_, rfl⟩
    rw [setAzimuth]
    split
    · next hany =>
      exfalso
      have := (any_key_iff_lookup res c).mp hany
      rw [h] at this
      cases this
    · rw [List.lookup_append, h]
      simp [List.lookup_cons]
  | some r =>
    refine ⟨{ r with azimuth_correction := some v }, ?_, rfl⟩
    rw [lookup_setAzimuth_of_some res c v c r h, if_pos rfl]

/-! ## Behaviour of the estimation loop -/

/-- The estimation loop never erases a stored date range: whatever record a
key maps to before the loop, afterwards the key maps to a record with the
same date range. -/
theorem stationFold_preserves_date (env : AnalysisEnv) (network : String)
    (metrics : List ((String × ℕ) × List (Option ℚ))) :
    ∀ acc code r₀, acc.1.lookup code = some r₀ →
      ∃ r, (stationFold env network metrics acc).1.lookup code = some r ∧
        r.date_range = r₀.date_range := by
  induction metrics with
  | nil => intro acc code r₀ h; exact ⟨r₀, h, rfl⟩
  | cons e rest ih =>
    intro acc code r₀ h
    rw [stationFold, List.foldl_cons]
    by_cases hlt : nValid (closedCurve e.2) < 5
    · have hstep : (processStation env network acc e).1 = acc.1 := by
        simp [processStation, hlt]
      have h' : (processStation env network acc e).1.lookup code = some r₀ := by
        rw [hstep]; exact h
      exact ih (processStation env network acc e) code r₀ h'
    · have hstep : (processStation env network acc e).1 =
        setAzimuth acc.1 (network ++ "." ++ e.1.1) (stationAngleMax env e.2) := by
        simp [processStation, hlt]
      have h' := lookup_setAzimuth_of_some acc.1 (network ++ "." ++ e.1.1)
        (stationAngleMax env e.2) code r₀ h
      rw [← hstep] at h'
      obtain ⟨r, hr, hdr⟩ := ih (processStation env network acc e) code _ h'
      refine ⟨r, hr, ?_⟩
      rw [hdr]
      split <;> rfl

/-- If every station of the loop either fails the 5-sample gate or has a
code different from `code`, the loop leaves `code`'s record untouched. -/
theorem stationFold_lookup_of_all_skip (env : AnalysisEnv) (network : String)
    (metrics : List ((String × ℕ) × List (Option ℚ))) :
    ∀ acc code,
      (∀ e ∈ metrics, nValid (closedCurve e.2) < 5 ∨ network ++ "." ++ e.1.1 ≠ code) →
      (stationFold env network metrics acc).1.lookup code = acc.1.lookup code := by
  induction metrics with
  | nil => intro acc code _; rfl
  | cons e rest ih =>
    intro acc code hall
    rw [stationFold, List.foldl_cons]
    have hrest : ∀ e' ∈ rest, nValid (closedCurve e'.2) < 5 ∨ network ++ "." ++ e'.1.1 ≠ code :=
      fun e' he' => hall e' (List.mem_cons_of_mem e he')
    have := ih (processStation env network acc e) code hrest
    rw [stationFold] at this
    rw [this]
    rcases hall e (List.mem_cons_self e rest) with hlt | hne
    · simp [processStation, hlt]
    · by_cases hlt : nValid (closedCurve e.2) < 5
      · simp [processStation, hlt]
      · have hstep : (processStation env network acc e).1 =
          setAzimuth acc.1 (network ++ "." ++ e.1.1) (stationAngleMax env e.2) := by
          simp [processStation, hlt]
        rw [hstep]
        exact lookup_setAzimuth_of_ne acc.1 _ _ code (fun h => hne h.symm)

/-- Every azimuth value stored by the estimation loop is the angle of
maximum of a fitted curve: values present before the loop are preserved or
overwritten by `stationAngleMax` results, and new records carry
`stationAngleMax` results. -/
theorem stationFold_az_shape (env : AnalysisEnv) (network : String)
    (metrics : List ((String × ℕ) × List (Option ℚ))) :
    ∀ acc,
      (∀ code r v, acc.1.lookup code = some r → r.azimuth_correction = some v →
        ∃ A ph, v = angleOfMax (env.curveEval A ph)) →
      ∀ code r v, (stationFold env network metrics acc).1.lookup code = some r →
        r.azimuth_correction = some v →
        ∃ A ph, v = angleOfMax (env.curveEval A ph) := by
  induction metrics with
  | nil => intro acc hacc code r v h hv; exact hacc code r v h hv
  | cons e rest ih =>
    intro acc hacc
    rw [stationFold, List.foldl_cons]
    apply ih
    intro code r v h hv
    by_cases hlt : nValid (closedCurve e.2) < 5
    · have hstep : (processStation env network acc e).1 = acc.1 := by
        simp [processStation, hlt]
      rw [hstep] at h
      exact hacc code r v h hv
    · have hstep : (processStation env network acc e).1 =
        setAzimuth acc.1 (network ++ "." ++ e.1.1) (stationAngleMax env e.2) := by
        simp [processStation, hlt]
      rw [hstep] at h
      by_cases hcc : code = network ++ "." ++ e.1.1
      · obtain ⟨r', hr', haz'⟩ :=
          lookup_setAzimuth_self acc.1 (network ++ "." ++ e.1.1) (stationAngleMax env e.2)
        rw [hcc, hr'] at h
        cases h
        have hv' : v = stationAngleMax env e.2 := by
          rw [haz'] at hv
          exact (Option.some.inj hv).symm
        exact ⟨(env.fit (xValid (xGrid anglesGrid) (closedCurve e.2)) (yValid (closedCurve e.2))).1,
          (env.fit (xValid (xGrid anglesGrid) (closedCurve e.2)) (yValid (closedCurve e.2))).2,
          by rw [hv']; rfl⟩
      · rw [lookup_setAzimuth_of_ne acc.1 _ _ code hcc] at h
        exact hacc code r v h hv

/-- Every record of the initial (date-range) mapping has a date range and no
azimuth correction. -/
theorem initResultsList_values (net : String)
    (l : List (String × List (String × Stream))) (code : String) (r : StationResult)
    (h : (l.map (fun p => (net ++ "." ++ p.1,
      ({ date_range := some (dateRangeOf p.2), azimuth_correction := none } :
        StationResult)))).lookup code = some r) :
    r.date_range.isSome ∧ r.azimuth_correction = none := by
  induction l with
  | nil => simp [List.lookup] at h
  | cons p rest ih =>
    rw [List.map_cons, List.lookup_cons] at h
    by_cases hck : code = net ++ "." ++ p.1
    · rw [show (code == net ++ "." ++ p.1) = true from beq_iff_eq.mpr hck] at h
      simp at h
      rw [← h]
      exact ⟨rfl, rfl⟩
    · rw [show (code == net ++ "." ++ p.1) = false from beq_false_of_ne hck] at h
      exact ih h

theorem initResults_values (ned : NED) (code : String) (r : StationResult)
    (h : (initResults ned).lookup code = some r) :
    r.date_range.isSome ∧ r.azimuth_correction = none :=
  initResultsList_values ned.network ned.stations code r h

/-- Every station of the input dataset has an entry in the initial mapping
under its `network.station` code. -/
theorem initResultsList_lookup_isSome (net : String)
    (l : List (String × List (String × Stream))) (sta : String)
    (db : List (String × Stream)) (hmem : (sta, db) ∈ l) :
    ((l.map (fun p => (net ++ "." ++ p.1,
      ({ date_range := some (dateRangeOf p.2), azimuth_correction := none } :
        StationResult)))).lookup (net ++ "." ++ sta)).isSome := by
  induction l with
  | nil => cases hmem
  | cons p rest ih =>
    rw [List.map_cons, List.lookup_cons]
    by_cases hck : net ++ "." ++ sta = net ++ "." ++ p.1
    · rw [show (net ++ "." ++ sta == net ++ "." ++ p.1) = true from beq_iff_eq.mpr hck]
      rfl
    · rw [show (net ++ "." ++ sta == net ++ "." ++ p.1) = false from beq_false_of_ne hck]
      rcases List.mem_cons.mp hmem with heq | hmem'
      · exact absurd (by rw [← heq]) hck
      · exact ih hmem'

theorem initResults_lookup_isSome (ned : NED) (sta : String)
    (db : List (String × Stream)) (hmem : (sta, db) ∈ ned.stations) :
    ((initResults ned).lookup (ned.network ++ "." ++ sta)).isSome :=
  initResultsList_lookup_isSome ned.network ned.stations sta db hmem

/-! ## Claim C2: totality and idempotence of the back-azimuth wrap -/

/-- C2: for every finite back-azimuth `b` and candidate correction angle `a`,
the repeated-adjustment wrap applied to `b + a` terminates (it is a total
function) and yields a value in `[0, 360)`; moreover applying the adjustment
to a value already in `[0, 360)` leaves it unchanged. -/
theorem wrap_total_and_idempotent (b a : ℚ) :
    wrap (b + a) ∈ Set.Ico (0:ℚ) 360 ∧
    (∀ c : ℚ, c ∈ Set.Ico (0:ℚ) 360 → wrap c = c) :=
  ⟨wrap_mem_Ico (b + a), wrap_of_mem_Ico⟩

theorem wrap_total_and_idempotent_witness :
    wrap (-1000 + 30) ∈ Set.Ico (0:ℚ) 360 ∧ wrap 42 = 42 :=
  ⟨(wrap_total_and_idempotent (-1000) 30).1,
   (wrap_total_and_idempotent (-1000) 30).2 42 (by norm_num [Set.mem_Ico])⟩

/-! ## Claim C4: closure of the wrapped amplitude curve -/

/-- C4: the closing wrap-around sample appended to a station's amplitude
curve is by construction the same value as the curve's first sample, so the
closure equation `y[last] = y[0]` holds for every curve passed to fitting. -/
theorem curve_closure (ampls : List (Option ℚ)) (h : ampls ≠ []) :
    (closedCurve ampls).getLast? = (closedCurve ampls).head? ∧
    (closedCurve ampls).getLast? = ampls.head? ∧
    (closedCurve ampls).length = ampls.length + 1 := by
  obtain ⟨x, xs, rfl⟩ := List.exists_cons_of_ne_nil h
  have hl : (closedCurve (x :: xs)).getLast? = some x := by
    rw [closedCurve]
    exact List.getLast?_concat _
  have hh : (closedCurve (x :: xs)).head? = some x := rfl
  exact ⟨by rw [hl, hh], by rw [hl]; rfl, by simp [closedCurve]⟩

theorem curve_closure_witness :
    (closedCurve [some 1, none]).getLast? = (closedCurve [some 1, none]).head? :=
  (curve_closure [some 1, none] (by simp)).1

/-! ## Claim C5: per-event skip and the undefined-metric sentinel -/

theorem collectRF_eq_flatten (db_evid : List (String × Stream)) (correction : ℚ)
    (transform : String → Stream → Option (List RFTrace)) :
    collectRF db_evid correction transform =
      (db_evid.filterMap (fun ev => transform ev.1 (rotateStream correction ev.2))).flatten := by
  rw [collectRF]
  suffices h : ∀ acc : List RFTrace,
      db_evid.foldl (fun rf_stream_all ev =>
        match transform ev.1 (rotateStream correction ev.2) with
        | none => rf_stream_all
        | some rf_3ch => rf_stream_all ++ rf_3ch) acc =
      acc ++ (db_evid.filterMap (fun ev => transform ev.1 (rotateStream correction ev.2))).flatten by
    rw [h []]
    rfl
  induction db_evid with
  | nil => intro acc; simp
  | cons ev rest ih =>
    intro acc
    rw [List.foldl_cons, List.filterMap_cons]
    cases h : transform ev.1 (rotateStream correction ev.2) with
    | none => simp only []; exact ih acc
    | some rf_3ch =>
      simp only [List.flatten_cons]
      rw [ih (acc ++ rf_3ch), List.append_assoc]

/-- C5: for a candidate angle, every event whose receiver-function transform
yields no result is skipped (the aggregate is the flattening of the
successful transforms only, and the evaluator is a total function, so no
error is possible); if no event contributes, the per-angle metric is the
`nan` sentinel (`none`), not an error; otherwise the metric is the mean
amplitude of the stacked radial component over the final window. -/
theorem evalAngle_missing_rf_policy (db_evid : List (String × Stream))
    (transform : String → Stream → Option (List RFTrace))
    (procStack : List RFTrace → List ℚ) (correction : ℚ) :
    collectRF db_evid correction transform =
      (db_evid.filterMap (fun ev => transform ev.1 (rotateStream correction ev.2))).flatten ∧
    ((∀ ev ∈ db_evid, transform ev.1 (rotateStream correction ev.2) = none) →
      evalAngle db_evid transform procStack correction = none) ∧
    (evalAngle db_evid transform procStack correction = none ↔
      collectRF db_evid correction transform = []) ∧
    (collectRF db_evid correction transform ≠ [] →
      evalAngle db_evid transform procStack correction =
        some (mean (procStack (selectR (collectRF db_evid correction transform))))) := by
  have hiff : evalAngle db_evid transform procStack correction = none ↔
      collectRF db_evid correction transform = [] := by
    rw [evalAngle]
    constructor
    · intro h
      by_cases hl : (collectRF db_evid correction transform).length > 0
      · rw [if_pos hl] at h; cases h
      · exact List.eq_nil_of_length_eq_zero (by omega)
    · intro h
      rw [h]
      simp
  refine ⟨collectRF_eq_flatten db_evid correction transform, ?_, hiff, ?_⟩
  · intro hall
    rw [hiff, collectRF_eq_flatten]
    rw [List.filterMap_eq_nil_iff.mpr hall]
    rfl
  · intro hne
    rw [evalAngle, if_pos (by
      cases h : collectRF db_evid correction transform with
      | nil => exact absurd h hne
      | cons a l => simp)]

theorem evalAngle_missing_rf_policy_witness :
    evalAngle [("ev0", [])] (fun _ _ => none) (fun _ => []) 0 = none :=
  (evalAngle_missing_rf_policy [("ev0", [])] (fun _ _ => none) (fun _ => []) 0).2.1
    (fun _ _ => rfl)

/-! ## Claim C6: one metric per candidate angle, in grid order -/

/-- C6: the per-station job returns exactly one amplitude metric per
candidate angle, in the same order as the grid, and the grid is the ordered
sequence of 20 evenly spaced (18° apart) angles over `[-180, 180)`. -/
theorem run_single_station_grid (db_evid : List (String × Stream))
    (transform : String → Stream → Option (List RFTrace))
    (procStack : List RFTrace → List ℚ) :
    run_single_station db_evid anglesGrid transform procStack =
      anglesGrid.map (evalAngle db_evid transform procStack) ∧
    (run_single_station db_evid anglesGrid transform procStack).length = 20 ∧
    anglesGrid.length = 20 ∧
    anglesGrid.getD 0 0 = -180 ∧
    (∀ i, i < 19 → anglesGrid.getD (i + 1) 0 - anglesGrid.getD i 0 = 360 / 20) ∧
    (∀ angle ∈ anglesGrid, -180 ≤ angle ∧ angle < 180) := by
  refine ⟨run_single_station_eq_map db_evid anglesGrid transform procStack,
    ?_, by simp [anglesGrid], by simp [anglesGrid, List.range_succ_eq_map], ?_, ?_⟩
  · rw [run_single_station_eq_map, List.length_map]
    simp [anglesGrid]
  · intro i hi
    simp only [anglesGrid, List.getD_eq_getElem?_getD]
    rw [List.getElem?_map, List.getElem?_map]
    rw [List.getElem?_range (by omega), List.getElem?_range (by omega)]
    simp
    ring
  · intro a ha
    simp only [anglesGrid, List.mem_map, List.mem_range] at ha
    obtain ⟨i, hi, rfl⟩ := ha
    have h1 : (0:ℚ) ≤ (i:ℚ) := Nat.cast_nonneg i
    have h2 : (i:ℚ) < 20 := by exact_mod_cast hi
    constructor <;> nlinarith

theorem run_single_station_grid_witness :
    run_single_station [] anglesGrid (fun _ _ => none) (fun _ => []) =
      anglesGrid.map (evalAngle [] (fun _ _ => none) (fun _ => [])) ∧
    anglesGrid.getD 4 0 - anglesGrid.getD 3 0 = 360 / 20 :=
  ⟨(run_single_station_grid [] (fun _ _ => none) (fun _ => [])).1,
   (run_single_station_grid [] (fun _ _ => none) (fun _ => [])).2.2.2.2.1 3 (by decide)⟩

/-! ## Claim C9: empty dataset is a degenerate success -/

/-- C9: a dataset with zero events returns the empty result mapping without
error, and no pipeline stage runs (the stage log is empty). -/
theorem empty_dataset_degenerate_success (env : AnalysisEnv) (ned : NED)
    (h : nedLen ned = 0) :
    analyze_station_orientations env ned = ([], []) := by
  rw [analyze_station_orientations, if_pos h]

/-- A trivial instantiation of the external collaborators (every
receiver-function transform fails), used by concrete evaluations. -/
def idEnv : AnalysisEnv where
  trimFn := id
  dsFn := id
  curateFn := id
  transform := fun _ _ => none
  procStack := fun _ => []
  fit := fun _ _ => (0, 0)
  curveEval := fun _ _ _ => 0

theorem empty_dataset_degenerate_success_witness :
    analyze_station_orientations idEnv ⟨"NT", []⟩ = ([], []) :=
  empty_dataset_degenerate_success idEnv ⟨"NT", []⟩ rfl

/-! ## Unfolding the orchestrator on a non-empty dataset -/

theorem analyze_eq (env : AnalysisEnv) (ned : NED) (hne : ¬ nedLen ned = 0) :
    analyze_station_orientations env ned =
      stationFold env (curatedNED env ned).network
        ((curatedNED env ned).stations.map (fun p =>
          ((p.1, p.2.length),
           run_single_station p.2 anglesGrid env.transform env.procStack)))
        (initResults ned,
         ["Trimming dataset", "Downsampling dataset", "Curating dataset",
          "Analysing arrivals"]) := by
  rw [analyze_station_orientations, if_neg hne]
  simp only [List.zip_map']

/-! ## Claim C10: every input station keeps a date-range entry -/

/-- C10: for every station of a non-empty input dataset, the returned
mapping has an entry keyed `network.station` whose `date_range` field is
set — including stations later skipped for insufficient valid samples,
whose entries carry a date range but no azimuth correction. -/
theorem date_range_always_present (env : AnalysisEnv) (ned : NED)
    (sta : String) (db : List (String × Stream)) (hmem : (sta, db) ∈ ned.stations)
    (hne : ¬ nedLen ned = 0) :
    (∃ r, (analyze_station_orientations env ned).1.lookup (ned.network ++ "." ++ sta) =
        some r ∧ r.date_range.isSome) ∧
    (∀ db', (sta, db') ∈ (curatedNED env ned).stations →
      (curatedNED env ned).network = ned.network →
      ((curatedNED env ned).stations.map
        (fun p => (curatedNED env ned).network ++ "." ++ p.1)).Nodup →
      nValid (closedCurve (run_single_station db' anglesGrid env.transform env.procStack)) < 5 →
      ∃ r, (analyze_station_orientations env ned).1.lookup (ned.network ++ "." ++ sta) =
          some r ∧ r.date_range.isSome ∧ r.azimuth_correction = none) := by
  constructor
  · rw [analyze_eq env ned hne]
    obtain ⟨r₀, hr₀⟩ := Option.isSome_iff_exists.mp (initResults_lookup_isSome ned sta db hmem)
    obtain ⟨hds, _⟩ := initResults_values ned _ r₀ hr₀
    obtain ⟨r, hr, hdr⟩ := stationFold_preserves_date env (curatedNED env ned).network
      ((curatedNED env ned).stations.map (fun p =>
        ((p.1, p.2.length), run_single_station p.2 anglesGrid env.transform env.procStack)))
      (initResults ned,
       ["Trimming dataset", "Downsampling dataset", "Curating dataset", "Analysing arrivals"])
      (ned.network ++ "." ++ sta) r₀ hr₀
    exact ⟨r, hr, by rw [hdr]; exact hds⟩
  · intro db' hmem' hnet hnodup hlt
    rw [analyze_eq env ned hne]
    rw [stationFold_lookup_of_all_skip env (curatedNED env ned).network _ _ _ ?_]
    · obtain ⟨r₀, hr₀⟩ := Option.isSome_iff_exists.mp
        (initResults_lookup_isSome ned sta db hmem)
      obtain ⟨hds, haz⟩ := initResults_values ned _ r₀ hr₀
      exact ⟨r₀, hr₀, hds, haz⟩
    · intro e he
      rw [List.mem_map] at he
      obtain ⟨p, hp, rfl⟩ := he
      by_cases hcode : (curatedNED env ned).network ++ "." ++ p.1 =
          ned.network ++ "." ++ sta
      · have hcode' : (curatedNED env ned).network ++ "." ++ p.1 =
            (curatedNED env ned).network ++ "." ++ sta := by
          rw [hcode, hnet]
        have hpeq : p = (sta, db') := List.inj_on_of_nodup_map hnodup hp hmem' hcode'
        left
        rw [hpeq]
        exact hlt
      · right
        exact hcode

/-! ## Claim C1 (amended): the 5-valid-sample gate -/

/-- C1 (amended): for a station of the curated dataset whose closed
amplitude curve has fewer than 5 finite samples, the pipeline emits no
azimuth correction for that station — the run is not aborted, and the
station's mapping entry (which keeps only its date range) has no
`azimuth_correction` field; with at least 5 finite samples, estimation
proceeds and the entry's azimuth correction is the fitted-cosine peak
angle. -/
theorem insufficient_data_gate (env : AnalysisEnv) (ned : NED)
    (hne : ¬ nedLen ned = 0)
    (hnodup : ((curatedNED env ned).stations.map
      (fun p => (curatedNED env ned).network ++ "." ++ p.1)).Nodup)
    (sta : String) (db : List (String × Stream))
    (hmem : (sta, db) ∈ (curatedNED env ned).stations) :
    (nValid (closedCurve (run_single_station db anglesGrid env.transform env.procStack)) < 5 →
      ∀ r, (analyze_station_orientations env ned).1.lookup
          ((curatedNED env ned).network ++ "." ++ sta) = some r →
        r.azimuth_correction = none) ∧
    (5 ≤ nValid (closedCurve (run_single_station db anglesGrid env.transform env.procStack)) →
      ∃ r, (analyze_station_orientations env ned).1.lookup
          ((curatedNED env ned).network ++ "." ++ sta) = some r ∧
        r.azimuth_correction = some (stationAngleMax env
          (run_single_station db anglesGrid env.transform env.procStack))) := by
  rw [analyze_eq env ned hne]
  constructor
  · intro hlt r hr
    rw [stationFold_lookup_of_all_skip env (curatedNED env ned).network _ _ _ ?_] at hr
    · exact (initResults_values ned _ r hr).2
    · intro e he
      rw [List.mem_map] at he
      obtain ⟨p, hp, rfl⟩ := he
      by_cases hcode : (curatedNED env ned).network ++ "." ++ p.1 =
        (curatedNED env ned).network ++ "." ++ sta
      · have hpeq : p = (sta, db) := List.inj_on_of_nodup_map hnodup hp hmem hcode
        left
        rw [hpeq]
        exact hlt
      · right
        exact hcode
  · intro hge
    obtain ⟨l1, l2, hsplit⟩ := List.append_of_mem hmem
    rw [hsplit, List.map_append, List.map_cons]
    rw [stationFold, List.foldl_append, List.foldl_cons]
    have hcodes : ((curatedNED env ned).network ++ "." ++ sta) ∉
        l2.map (fun p => (curatedNED env ned).network ++ "." ++ p.1) := by
      have h2 := hnodup
      rw [hsplit, List.map_append, List.map_cons] at h2
      exact (List.nodup_cons.mp h2.of_append_right).1
    set acc1 := List.foldl (processStation env (curatedNED env ned).network)
      (initResults ned,
       ["Trimming dataset", "Downsampling dataset", "Curating dataset", "Analysing arrivals"])
      (l1.map (fun p =>
        ((p.1, p.2.length), run_single_station p.2 anglesGrid env.transform env.procStack)))
      with hacc1
    have hstep : (processStation env (curatedNED env ned).network acc1
        ((sta, db.length), run_single_station db anglesGrid env.transform env.procStack)).1 =
        setAzimuth acc1.1 ((curatedNED env ned).network ++ "." ++ sta)
          (stationAngleMax env
            (run_single_station db anglesGrid env.transform env.procStack)) := by
      simp [processStation, not_lt.mpr hge]
    obtain ⟨r', hr', haz'⟩ := lookup_setAzimuth_self acc1.1
      ((curatedNED env ned).network ++ "." ++ sta)
      (stationAngleMax env (run_single_station db anglesGrid env.transform env.procStack))
    refine ⟨r', ?_, haz'⟩
    have hrest := stationFold_lookup_of_all_skip env (curatedNED env ned).network
      (l2.map (fun p =>
        ((p.1, p.2.length), run_single_station p.2 anglesGrid env.transform env.procStack)))
      (processStation env (curatedNED env ned).network acc1
        ((sta, db.length), run_single_station db anglesGrid env.transform env.procStack))
      ((curatedNED env ned).network ++ "." ++ sta) ?_
    · rw [stationFold] at hrest
      rw [hrest, hstep, hr']
    · intro e he
      rw [List.mem_map] at he
      obtain ⟨p, hp, rfl⟩ := he
      right
      intro hcode
      exact hcodes (hcode ▸ List.mem_map_of_mem
        (fun p => (curatedNED env ned).network ++ "." ++ p.1) hp)

/-! ## Claim C3: emitted corrections are fitted-cosine peak angles -/

/-- C3: every azimuth correction the pipeline emits is the angle at which
the fitted cosine model attains its maximum over the dense 1°-step
reconstruction grid.  The cosine model takes equal values at the two
endpoints of the code's 361-point grid (`y_fitted A ph 180 =
y_fitted A ph (-180)`, first conjunct), so `np.argmax`'s first-occurrence
tie-break never selects the duplicated right endpoint: the emitted angle is
the peak over the `[-180, 180)` grid and always lies in `[-180, 180)`. -/
theorem azimuth_correction_from_cosine_peak :
    (∀ A ph : ℝ, y_fitted A ph 180 = y_fitted A ph (-180)) ∧
    (∀ (env : AnalysisEnv) (ned : NED),
      (∀ A ph : ℚ, env.curveEval A ph 180 = env.curveEval A ph (-180)) →
      ∀ code r v, (analyze_station_orientations env ned).1.lookup code = some r →
        r.azimuth_correction = some v →
        ∃ A ph, v = angleOfMax (env.curveEval A ph) ∧
          v = listArgmax (env.curveEval A ph) anglesFineHalf ∧
          v ∈ Set.Ico (-180 : ℚ) 180 ∧
          ∀ θ ∈ anglesFine, env.curveEval A ph θ ≤ env.curveEval A ph v) := by
  refine ⟨y_fitted_endpoint, ?_⟩
  intro env ned hcurve code r v hr hv
  by_cases hne : nedLen ned = 0
  · rw [empty_dataset_degenerate_success env ned hne] at hr
    simp [List.lookup] at hr
  · rw [analyze_eq env ned hne] at hr
    have hshape := stationFold_az_shape env (curatedNED env ned).network
      ((curatedNED env ned).stations.map (fun p =>
        ((p.1, p.2.length), run_single_station p.2 anglesGrid env.transform env.procStack)))
      (initResults ned,
       ["Trimming dataset", "Downsampling dataset", "Curating dataset", "Analysing arrivals"])
      (fun code' r' v' h' hv' => by
        have h2 := (initResults_values ned code' r' h').2
        rw [h2] at hv'
        cases hv')
      code r v hr hv
    obtain ⟨A, ph, hA⟩ := hshape
    refine ⟨A, ph, hA, ?_, ?_, ?_⟩
    · rw [hA]
      exact angleOfMax_eq_half _ (hcurve A ph)
    · rw [hA]
      exact angleOfMax_mem _ (hcurve A ph)
    · intro θ hθ
      rw [hA]
      exact angleOfMax_ge _ θ hθ

/-! ## Concrete sample data for the witnesses and the counterexample -/

/-- A concrete three-field trace: back-azimuth 45°, time span `[0, 100]`. -/
def sampleTrace : Trace := ⟨⟨45, 0, 100⟩, [1, 2]⟩

/-- A dataset with a single station `S01` holding one event. -/
def sampleNED : NED := ⟨"NT", [("S01", [("ev0", [sampleTrace])])]⟩

/-- Collaborators whose receiver-function transform always succeeds with an
`R` trace, so every candidate angle yields a finite metric. -/
def rfEnv : AnalysisEnv :=
  { idEnv with transform := fun _ _ => some [⟨'R', [1]⟩], procStack := fun _ => [2] }

/-- C1 counterexample: with one station whose curve has 0 < 5 finite
samples, no orientation estimate is emitted, but the station is *not*
excluded from the output mapping — its entry is present, holding the date
range and no azimuth correction. -/
theorem insufficient_station_not_excluded :
    nValid (closedCurve (run_single_station [("ev0", [sampleTrace])] anglesGrid
      idEnv.transform idEnv.procStack)) < 5 ∧
    (analyze_station_orientations idEnv sampleNED).1.lookup
        ((curatedNED idEnv sampleNED).network ++ "." ++ "S01") =
      some { date_range := some (some 0, some 100), azimuth_correction := none } :=
  ⟨by decide, by decide⟩

theorem insufficient_data_gate_witness :
    ∃ r, (analyze_station_orientations rfEnv sampleNED).1.lookup
        ((curatedNED rfEnv sampleNED).network ++ "." ++ "S01") = some r ∧
      r.azimuth_correction = some (stationAngleMax rfEnv
        (run_single_station [("ev0", [sampleTrace])] anglesGrid
          rfEnv.transform rfEnv.procStack)) :=
  (insufficient_data_gate rfEnv sampleNED (by decide) (by decide) "S01"
    [("ev0", [sampleTrace])] (by decide)).2 (by decide)

theorem date_range_always_present_witness :
    ∃ r, (analyze_station_orientations idEnv sampleNED).1.lookup
        (sampleNED.network ++ "." ++ "S01") = some r ∧
      r.date_range.isSome ∧ r.azimuth_correction = none :=
  (date_range_always_present idEnv sampleNED "S01" [("ev0", [sampleTrace])]
    (by decide) (by decide)).2 [("ev0", [sampleTrace])]
    (by decide) (by decide) (by decide) (by decide)

theorem rf_sample_lookup :
    (analyze_station_orientations rfEnv sampleNED).1.lookup
        ((curatedNED rfEnv sampleNED).network ++ "." ++ "S01") =
      some { date_range := some (some 0, some 100),
             azimuth_correction := some (stationAngleMax rfEnv
               (run_single_station [("ev0", [sampleTrace])] anglesGrid
                 rfEnv.transform rfEnv.procStack)) } := by
  rfl

theorem azimuth_correction_from_cosine_peak_witness :
    angleOfMax (fun _ : ℚ => (0:ℚ)) ∈ Set.Ico (-180 : ℚ) 180 := by
  obtain ⟨A, ph, h1, h2, h3, h4⟩ :=
    azimuth_correction_from_cosine_peak.2 rfEnv sampleNED (fun _ _ => rfl)
      ((curatedNED rfEnv sampleNED).network ++ "." ++ "S01")
      { date_range := some (some 0, some 100),
        azimuth_correction := some (stationAngleMax rfEnv
          (run_single_station [("ev0", [sampleTrace])] anglesGrid
            rfEnv.transform rfEnv.procStack)) }
      (stationAngleMax rfEnv (run_single_station [("ev0", [sampleTrace])] anglesGrid
        rfEnv.transform rfEnv.procStack))
      rf_sample_lookup rfl
  exact h3

/-! ## Claim C7: parallel dispatch (modelled from the spec) -/

/-- `true` exactly when a worker outcome is a raised exception. -/
def isErr : Except String (List (Option ℚ)) → Bool
  | Except.error _ => true
  | Except.ok _ => false

/-- The curve payload of a successful worker outcome. -/
def okVal : Except String (List (Option ℚ)) → Option (List (Option ℚ))
  | Except.error _ => none
  | Except.ok c => some c

/-- Modelled from the spec: the joblib `Parallel` runner of lines 178–186 is
an external library; per the spec, one job per station is submitted, workers
finish in an arbitrary completion order, each completed outcome is tagged
with its submission index, results are reassembled positionally by
submission index, and a raised exception in any worker fails the whole
batch with no partial results. -/
def dispatchJobs (jobs : List (Except String (List (Option ℚ)))) (order : List ℕ) :
    Except String (List (List (Option ℚ))) :=
  let completed := order.map (fun i => (i, jobs.getD i (Except.error "missing")))
  let gathered := (List.range jobs.length).map
    (fun i => (completed.lookup i).getD (Except.error "missing"))
  if gathered.any isErr then
    Except.error "worker failure"
  else
    Except.ok (gathered.filterMap okVal)

theorem lookup_map_pair (f : ℕ → Except String (List (Option ℚ))) (order : List ℕ)
    (i : ℕ) (hi : i ∈ order) :
    (order.map (fun j => (j, f j))).lookup i = some (f i) := by
  induction order with
  | nil => cases hi
  | cons j rest ih =>
    rw [List.map_cons, List.lookup_cons]
    by_cases hij : i = j
    · rw [show (i == j) = true from beq_iff_eq.mpr hij, hij]
    · rw [show (i == j) = false from beq_false_of_ne hij]
      rcases List.mem_cons.mp hi with h | h
      · exact absurd h hij
      · exact ih h

theorem map_getD_range (l : List (Except String (List (Option ℚ)))) :
    (List.range l.length).map (fun i => l.getD i (Except.error "missing")) = l := by
  induction l with
  | nil => rfl
  | cons x rest ih =>
    rw [List.length_cons, List.range_succ_eq_map, List.map_cons, List.map_map]
    have hcomp : ((fun i => (x :: rest).getD i (Except.error "missing")) ∘ Nat.succ) =
        (fun i => rest.getD i (Except.error "missing")) := rfl
    rw [hcomp, ih]
    rfl

/-- Reassembly is independent of the completion order: the gathered list is
the submitted job list itself. -/
theorem dispatchJobs_gathered (jobs : List (Except String (List (Option ℚ))))
    (order : List ℕ) (hperm : order.Perm (List.range jobs.length)) :
    dispatchJobs jobs order =
      (if jobs.any isErr then Except.error "worker failure"
       else Except.ok (jobs.filterMap okVal)) := by
  rw [dispatchJobs]
  have hmem : ∀ i, i < jobs.length → i ∈ order := fun i hi =>
    (List.Perm.mem_iff hperm).mpr (List.mem_range.mpr hi)
  have hgather : (List.range jobs.length).map
      (fun i => (((order.map (fun j => (j, jobs.getD j (Except.error "missing")))).lookup i).getD
        (Except.error "missing"))) = jobs := by
    have h1 : ∀ i ∈ List.range jobs.length,
        (((order.map (fun j => (j, jobs.getD j (Except.error "missing")))).lookup i).getD
          (Except.error "missing")) = jobs.getD i (Except.error "missing") := by
      intro i hi
      rw [lookup_map_pair (fun j => jobs.getD j (Except.error "missing")) order i
        (hmem i (List.mem_range.mp hi))]
      rfl
    rw [List.map_congr_left h1]
    exact map_getD_range jobs
  rw [hgather]

/-- C7: the dispatch returns per-station curves regardless of worker
completion order, positionally aligned with the submission order, and any
single worker failure fails the whole batch with no partial results. -/
theorem parallel_dispatch_order_and_failure
    (jobs : List (Except String (List (Option ℚ)))) (order : List ℕ)
    (hperm : order.Perm (List.range jobs.length)) :
    dispatchJobs jobs order = dispatchJobs jobs (List.range jobs.length) ∧
    (∀ curves : List (List (Option ℚ)), jobs = curves.map Except.ok →
      dispatchJobs jobs order = Except.ok curves) ∧
    (∀ msg j, j ∈ jobs → j = Except.error msg →
      dispatchJobs jobs order = Except.error "worker failure") := by
  refine ⟨?_, ?_, ?_⟩
  · rw [dispatchJobs_gathered jobs order hperm,
      dispatchJobs_gathered jobs (List.range jobs.length) (List.Perm.refl _)]
  · intro curves hcurves
    rw [dispatchJobs_gathered jobs order hperm, hcurves]
    have hno : (curves.map Except.ok).any isErr = false := by
      rw [List.any_eq_false]
      intro x hx
      rw [List.mem_map] at hx
      obtain ⟨c, _, rfl⟩ := hx
      simp [isErr]
    rw [hno]
    simp only [Bool.false_eq_true, if_false]
    congr 1
    rw [List.filterMap_map]
    have : (okVal ∘ Except.ok) = some := rfl
    rw [this, List.filterMap_some]
  · intro msg j hj hjerr
    rw [dispatchJobs_gathered jobs order hperm]
    have hyes : jobs.any isErr = true := by
      rw [List.any_eq_true]
      exact ⟨j, hj, by rw [hjerr]; rfl⟩
    rw [hyes]
    rfl

theorem parallel_dispatch_order_and_failure_witness :
    dispatchJobs [Except.ok [some 1], Except.error "boom"] [1, 0] =
      Except.error "worker failure" :=
  (parallel_dispatch_order_and_failure [Except.ok [some 1], Except.error "boom"] [1, 0]
    (by decide)).2.2 "boom" (Except.error "boom") (by simp) rfl

/-! ## Claim C8: the evaluator never mutates the caller's collection

The Python loop of lines 75–92 deep-copies each event's stream
(`copy.deepcopy`, line 77) and mutates the *copy* in place (lines 78–84).
To make the in-place mutation observable, streams live in an explicit
object store addressed by index; the caller's collection maps event ids to
addresses into that store. -/

/-- The heap of stream objects; an address is an index. -/
abbrev Store := List Stream

/-- `copy.deepcopy(stream)`: allocate a fresh object with the same value;
returns the extended store and the fresh address. -/
def deepcopyAlloc (st : Store) (s : Stream) : Store × ℕ :=
  (st ++ [s], st.length)

/-- In-place mutation of the object at address `a`. -/
def storeWrite (st : Store) (a : ℕ) (s : Stream) : Store :=
  st.set a s

/-- Dereference address `a`. -/
def storeRead (st : Store) (a : ℕ) : Stream :=
  st.getD a []

/-- One iteration of the event loop of lines 76–92, with the object store
explicit: deep-copy the event's stream, mutate the copy in place (the
back-azimuth rotation and wrap of lines 78–84), hand the mutated copy to
the external transform, and skip the event (`continue`) when the transform
yields no result. -/
def evStep (correction : ℚ) (transform : String → Stream → Option (List RFTrace))
    (acc : Store × List RFTrace) (ev : String × ℕ) : Store × List RFTrace :=
  let alloc := deepcopyAlloc acc.1 (storeRead acc.1 ev.2)
  let st2 := storeWrite alloc.1 alloc.2
    (rotateStream correction (storeRead alloc.1 alloc.2))
  match transform ev.1 (storeRead st2 alloc.2) with
  | none => (st2, acc.2)
  | some rf_3ch => (st2, acc.2 ++ rf_3ch)

/-- The body of `_run_single_station` for one candidate angle, with the
object store explicit. -/
def evalAngleSt (db_evid : List (String × ℕ)) (correction : ℚ)
    (transform : String → Stream → Option (List RFTrace))
    (procStack : List RFTrace → List ℚ) (st : Store) : Store × Option ℚ :=
  let step := db_evid.foldl (evStep correction transform) (st, [])
  (step.1,
   if step.2.length > 0 then some (mean (procStack (selectR step.2))) else none)

/-- One iteration of the angle loop: evaluate the angle on the current
store and append the metric to `ampls`. -/
def sweepStep (db_evid : List (String × ℕ))
    (transform : String → Stream → Option (List RFTrace))
    (procStack : List RFTrace → List ℚ)
    (acc : Store × List (Option ℚ)) (correction : ℚ) : Store × List (Option ℚ) :=
  let r := evalAngleSt db_evid correction transform procStack acc.1
  (r.1, acc.2 ++ [r.2])

/-- The full angle sweep with the explicit object store. -/
def run_single_station_st (db_evid : List (String × ℕ)) (angles : List ℚ)
    (transform : String → Stream → Option (List RFTrace))
    (procStack : List RFTrace → List ℚ) (st : Store) : Store × List (Option ℚ) :=
  angles.foldl (sweepStep db_evid transform procStack) (st, [])

theorem storeRead_append_left (l t : List Stream) (a : ℕ) (ha : a < l.length) :
    storeRead (l ++ t) a = storeRead l a := by
  rw [storeRead, storeRead]
  exact List.getD_append l t [] a ha

theorem storeRead_append_length (l : List Stream) (x : Stream) :
    storeRead (l ++ [x]) l.length = x := by
  rw [storeRead]
  induction l with
  | nil => rfl
  | cons y rest ih => exact ih

theorem set_append_length (l : List Stream) (x y : Stream) :
    (l ++ [x]).set l.length y = l ++ [y] := by
  induction l with
  | nil => rfl
  | cons z rest ih =>
    rw [List.cons_append, List.length_cons, List.set_cons_succ, ih]
    rfl

/-- The inner event loop only appends fresh objects to the store, and its
collected aggregate is the flattening of the successful transforms of the
rotated copies of the *original* stream values. -/
theorem evalAngleSt_fold (db_evid : List (String × ℕ)) (correction : ℚ)
    (transform : String → Stream → Option (List RFTrace)) (st₀ : Store)
    (hvalid : ∀ ev ∈ db_evid, ev.2 < st₀.length) :
    ∀ (t : List Stream) (rfacc : List RFTrace),
      ∃ t', db_evid.foldl (evStep correction transform) (st₀ ++ t, rfacc) =
      (st₀ ++ t ++ t',
       rfacc ++ (db_evid.filterMap (fun ev =>
         transform ev.1 (rotateStream correction (storeRead st₀ ev.2)))).flatten) := by
  induction db_evid with
  | nil =>
    intro t rfacc
    exact ⟨[], by simp⟩
  | cons ev rest ih =>
    intro t rfacc
    have hev : ev.2 < st₀.length := hvalid ev (List.mem_cons_self ev rest)
    have hrest : ∀ e ∈ rest, e.2 < st₀.length :=
      fun e he => hvalid e (List.mem_cons_of_mem ev he)
    have hread : storeRead (st₀ ++ t) ev.2 = storeRead st₀ ev.2 :=
      storeRead_append_left st₀ t ev.2 hev
    have hfresh : storeRead ((st₀ ++ t) ++ [storeRead (st₀ ++ t) ev.2]) (st₀ ++ t).length =
        storeRead (st₀ ++ t) ev.2 :=
      storeRead_append_length (st₀ ++ t) _
    have hset : ((st₀ ++ t) ++ [storeRead (st₀ ++ t) ev.2]).set (st₀ ++ t).length
        (rotateStream correction (storeRead (st₀ ++ t) ev.2)) =
        (st₀ ++ t) ++ [rotateStream correction (storeRead (st₀ ++ t) ev.2)] :=
      set_append_length (st₀ ++ t) _ _
    have hread2 : storeRead
        ((st₀ ++ t) ++ [rotateStream correction (storeRead (st₀ ++ t) ev.2)])
        (st₀ ++ t).length = rotateStream correction (storeRead (st₀ ++ t) ev.2) :=
      storeRead_append_length (st₀ ++ t) _
    rw [List.foldl_cons, List.filterMap_cons]
    cases htr : transform ev.1 (rotateStream correction (storeRead st₀ ev.2)) with
    | none =>
      have happ : evStep correction transform (st₀ ++ t, rfacc) ev =
          (st₀ ++ (t ++ [rotateStream correction (storeRead st₀ ev.2)]), rfacc) := by
        rw [evStep]
        simp only [deepcopyAlloc, storeWrite]
        rw [hfresh, hset, hread2, hread, htr]
        simp [List.append_assoc]
      obtain ⟨t', ht'⟩ := ih hrest (t ++ [rotateStream correction (storeRead st₀ ev.2)]) rfacc
      refine ⟨[rotateStream correction (storeRead st₀ ev.2)] ++ t', ?_⟩
      rw [happ, ht']
      simp [List.append_assoc]
    | some rf_3ch =>
      have happ : evStep correction transform (st₀ ++ t, rfacc) ev =
          (st₀ ++ (t ++ [rotateStream correction (storeRead st₀ ev.2)]),
           rfacc ++ rf_3ch) := by
        rw [evStep]
        simp only [deepcopyAlloc, storeWrite]
        rw [hfresh, hset, hread2, hread, htr]
        simp [List.append_assoc]
      obtain ⟨t', ht'⟩ := ih hrest (t ++ [rotateStream correction (storeRead st₀ ev.2)])
        (rfacc ++ rf_3ch)
      refine ⟨[rotateStream correction (storeRead st₀ ev.2)] ++ t', ?_⟩
      rw [happ, ht']
      simp [List.append_assoc]

/-- One angle's evaluation: the store is only extended, and the metric is
exactly the pure evaluator's metric on the dereferenced collection. -/
theorem evalAngleSt_spec (db_evid : List (String × ℕ)) (correction : ℚ)
    (transform : String → Stream → Option (List RFTrace))
    (procStack : List RFTrace → List ℚ) (st : Store)
    (hvalid : ∀ ev ∈ db_evid, ev.2 < st.length) :
    ∃ t, evalAngleSt db_evid correction transform procStack st =
      (st ++ t,
       evalAngle (db_evid.map (fun ev => (ev.1, storeRead st ev.2)))
         transform procStack correction) := by
  obtain ⟨t', ht'⟩ := evalAngleSt_fold db_evid correction transform st hvalid [] []
  rw [List.append_nil] at ht'
  refine ⟨t', ?_⟩
  rw [evalAngleSt, ht']
  have hagg : (db_evid.filterMap (fun ev =>
      transform ev.1 (rotateStream correction (storeRead st ev.2)))).flatten =
      collectRF (db_evid.map (fun ev => (ev.1, storeRead st ev.2))) correction transform := by
    rw [collectRF_eq_flatten, List.filterMap_map]
    rfl
  rw [evalAngle]
  simp only [List.nil_append]
  rw [hagg]

/-- C8: the angle-sweep evaluator never mutates the caller-owned
collection: it only allocates fresh copies, every stream object the caller
can reach is unchanged after the sweep, and the metrics are those of the
pure evaluator applied to the original (unmutated) stream values. -/
theorem run_single_station_no_mutation (db_evid : List (String × ℕ)) (angles : List ℚ)
    (transform : String → Stream → Option (List RFTrace))
    (procStack : List RFTrace → List ℚ) (st : Store)
    (hvalid : ∀ ev ∈ db_evid, ev.2 < st.length) :
    (∀ a, a < st.length →
      storeRead (run_single_station_st db_evid angles transform procStack st).1 a =
        storeRead st a) ∧
    (run_single_station_st db_evid angles transform procStack st).2 =
      run_single_station (db_evid.map (fun ev => (ev.1, storeRead st ev.2)))
        angles transform procStack := by
  have main : ∀ (t₀ : List Stream) (ampls : List (Option ℚ)),
      ∃ t, angles.foldl (sweepStep db_evid transform procStack) (st ++ t₀, ampls) =
      (st ++ t,
       ampls ++ angles.map (evalAngle
         (db_evid.map (fun ev => (ev.1, storeRead st ev.2))) transform procStack)) := by
    induction angles with
    | nil =>
      intro t₀ ampls
      exact ⟨t₀, by simp⟩
    | cons c rest ih =>
      intro t₀ ampls
      rw [List.foldl_cons, List.map_cons]
      have hvalid' : ∀ ev ∈ db_evid, ev.2 < (st ++ t₀).length := by
        intro ev hev
        rw [List.length_append]
        exact Nat.lt_of_lt_of_le (hvalid ev hev) (Nat.le_add_right _ _)
      obtain ⟨t₁, ht₁⟩ := evalAngleSt_spec db_evid c transform procStack (st ++ t₀) hvalid'
      have hderef : (db_evid.map (fun ev => (ev.1, storeRead (st ++ t₀) ev.2))) =
          (db_evid.map (fun ev => (ev.1, storeRead st ev.2))) := by
        apply List.map_congr_left
        intro ev hev
        rw [storeRead_append_left st t₀ ev.2 (hvalid ev hev)]
      rw [hderef] at ht₁
      have happ : sweepStep db_evid transform procStack (st ++ t₀, ampls) c =
          (st ++ (t₀ ++ t₁),
           ampls ++ [evalAngle (db_evid.map (fun ev => (ev.1, storeRead st ev.2)))
             transform procStack c]) := by
        rw [sweepStep, ht₁, List.append_assoc]
      rw [happ]
      obtain ⟨t, ht⟩ := ih (t₀ ++ t₁)
        (ampls ++ [evalAngle (db_evid.map (fun ev => (ev.1, storeRead st ev.2)))
          transform procStack c])
      refine ⟨t, ?_⟩
      rw [ht]
      simp
  obtain ⟨t, ht⟩ := main [] []
  rw [List.append_nil] at ht
  constructor
  · intro a ha
    rw [run_single_station_st, ht]
    exact storeRead_append_left st t a ha
  · rw [run_single_station_st, ht, run_single_station_eq_map]
    rfl

theorem run_single_station_no_mutation_witness :
    storeRead (run_single_station_st [("ev0", 0)] anglesGrid
      (fun _ _ => none) (fun _ => []) [[sampleTrace]]).1 0 =
      storeRead [[sampleTrace]] 0 :=
  (run_single_station_no_mutation [("ev0", 0)] anglesGrid (fun _ _ => none)
    (fun _ => []) [[sampleTrace]] (by decide)).1 0 (by decide)

end AnalyzeStationOrientations
